import Mathlib

/-!
Verification development for the Mars-Troughs trough-migration model
(`mars_troughs/trough.py`) and its MCMC parameter estimator
(`mars_troughs/mcmc.py`).

Modelling conventions.

* Floating point numbers are modelled as rationals (`ℚ`); the one place the
  source takes a logarithm (`np.log` in `Trough.lnlikelihood`) is modelled in
  `ℝ` with `Real.log`, applied to the rational value computed so far.
* A scipy `InterpolatedUnivariateSpline` is a value built from its
  construction data (knot axis and data values).  Nothing in the claims needs
  the numeric interpolation itself, only which data a spline was built from,
  so a spline is represented by that data; the antiderivative of a spline is
  represented by the spline it came from.  The fixed 2-D retreat spline
  (`RectBivariateSpline`) is built once from the data tables and never
  rebuilt; its pointwise evaluation (`.ev`) is an opaque function supplied at
  construction.
* The accumulation and lag submodels are external collaborators selected by
  name from a registry; their closed forms are not part of the sources
  verified here.  They are modelled from the spec as records holding the
  variant law (a function of the parameter vector) and the current parameter
  vector, matching the interface the core requires: vectorized, deterministic
  evaluation over a sequence of times, plus a replaceable parameter vector.
* `mcmc.py` passes the named parameter vector to `Trough.set_model`, which
  takes the accumulation slice, the lag slice and the errorbar; the split
  (errorbar followed by the accumulation and lag parameters, in the order of
  `parameter_names`) is modelled by the record `Params`.
-/

namespace MarsTroughs

/-- A 1-D interpolated spline (`InterpolatedUnivariateSpline`), identified by
its construction data: the knot axis and the data values. -/
structure IUS where
  knots : List ℚ
  vals : List ℚ
deriving DecidableEq

/-- The antiderivative of a 1-D spline, identified by the spline it was taken
from (`IUS.antiderivative`). -/
structure IUSAD where
  parent : IUS
deriving DecidableEq

/-- Construction data of a `RectBivariateSpline`: first axis, second axis and
the 2-D table of values. -/
structure RBSData where
  x : List ℚ
  y : List ℚ
  z : List (List ℚ)
deriving DecidableEq

/-- Modelled from the spec: the Accumulation Submodel of the Submodel
Interface, an external collaborator whose closed forms are not among the
verified sources.  `fam_yt` is the law of the chosen variant for the vertical
position at a time, `fam_xt` the law for the horizontal position (consuming
the antiderivative-of-retreat spline and the two slope trigonometric
factors), both as functions of the current parameter vector; `parameters` is
the replaceable parameter vector. -/
structure AccuModel where
  fam_yt : List ℚ → ℚ → ℚ
  fam_xt : List ℚ → IUSAD → ℚ → ℚ → ℚ → ℚ
  parameters : List ℚ

/-- Modelled from the spec: the Lag Submodel of the Submodel Interface.
`fam_lag` is the law of the chosen variant for lag thickness at a time, as a
function of the current parameter vector. -/
structure LagModel where
  fam_lag : List ℚ → ℚ → ℚ
  parameters : List ℚ

/-- `lagModel.get_lag_at_t(times)`: vectorized lag thickness at the given
times under the current parameter vector. -/
def LagModel.get_lag_at_t (m : LagModel) (times : List ℚ) : List ℚ :=
  times.map (m.fam_lag m.parameters)

/-- `accuModel.get_yt(times)`: vectorized vertical position. -/
def AccuModel.get_yt (m : AccuModel) (times : List ℚ) : List ℚ :=
  times.map (m.fam_yt m.parameters)

/-- `accuModel.get_xt(times, int_retreat_spline, cot_angle, csc_angle)`:
vectorized horizontal position, consuming the antiderivative-of-retreat
spline and the slope trigonometric factors supplied by the trough model. -/
def AccuModel.get_xt (m : AccuModel) (times : List ℚ) (spl : IUSAD)
    (cot csc : ℚ) : List ℚ :=
  times.map (fun t => m.fam_xt m.parameters spl cot csc t)

/-- The fixed lag axis built by `Trough.__init__`:
`self.lags = np.arange(16) + 1; self.lags[0] -= 1; self.lags[-1] = 20`. -/
def lagsAxis : List ℤ :=
  let l := (List.range 16).map (fun i => (i : ℤ) + 1)
  let l := l.set 0 (l.getD 0 0 - 1)
  l.set 15 20

/-- The trough model state (`Trough`), one hypothesis of trough physics.
`ret_ev` is the pointwise evaluation of the 2-D retreat spline, opaque data
fixed at construction (the spline is built once from the loaded tables and
never rebuilt).  `cot_angle` and `csc_angle` are the slope trigonometric
factors the constructor derives from the angle; no claim depends on their
numeric values, so they are inputs here. -/
structure Trough where
  errorbar : ℚ
  mpp_x : ℚ
  mpp_y : ℚ
  cot_angle : ℚ
  csc_angle : ℚ
  insolation : List ℚ
  ins_times : List ℚ
  retreats : List (List ℚ)
  lags : List ℤ
  ret_data_spline : RBSData
  re2_data_spline : RBSData
  ret_ev : ℚ → ℚ → ℚ
  accuModel : AccuModel
  lagModel : LagModel
  lag_model_t : List ℚ
  retreat_model_t : List ℚ
  lag_model_t_spline : IUS
  retreat_model_t_spline : IUS
  int_retreat_model_t_spline : IUSAD

/-- `Trough.get_retreat_model_t(lag_t, time)`: evaluates the 2-D retreat
spline pointwise (`self.ret_data_spline.ev(lag_t, time)`). -/
def Trough.get_retreat_model_t (st : Trough) (lag_t times : List ℚ) :
    List ℚ :=
  List.zipWith st.ret_ev lag_t times

/-- `Trough.compute_model_splines`: rebuilds the 1-D spline of lag per time,
the 1-D spline of retreat per time, and the antiderivative of the latter,
from the current `lag_model_t` and `retreat_model_t` arrays. -/
def Trough.compute_model_splines (st : Trough) : Trough :=
  let lspl : IUS := ⟨st.ins_times, st.lag_model_t⟩
  let rspl : IUS := ⟨st.ins_times, st.retreat_model_t⟩
  { st with
    lag_model_t_spline := lspl
    retreat_model_t_spline := rspl
    int_retreat_model_t_spline := ⟨rspl⟩ }

/-- `Trough.set_model(acc_params, lag_params, errorbar)`: overwrites the
errorbar and both submodel parameter vectors, then recomputes the arrays of
lag per time and retreat per time over the stored time axis.  It does not
rebuild the 1-D splines. -/
def Trough.set_model (st : Trough) (acc_params lag_params : List ℚ)
    (errorbar : ℚ) : Trough :=
  let st1 := { st with
    errorbar := errorbar
    accuModel := { st.accuModel with parameters := acc_params }
    lagModel := { st.lagModel with parameters := lag_params } }
  let lag_model_t := st1.lagModel.get_lag_at_t st1.ins_times
  let retreat_model_t := st1.get_retreat_model_t lag_model_t st1.ins_times
  { st1 with lag_model_t := lag_model_t, retreat_model_t := retreat_model_t }

/-- `Trough.__init__`: loads the data tables, negates the insolation times
(positive times lie in the past), builds the fixed lag axis and the 2-D
retreat splines over it, instantiates the submodels with their initial
parameter vectors, computes the initial lag-per-time and retreat-per-time
arrays, and finally calls `compute_model_splines`.  The spline fields are
placeholders until that final call, matching the order of the source.
Submodel selection by name is modelled by supplying the variant laws
directly; `ret_ev` is the evaluator scipy derives for the 2-D data spline. -/
def Trough.init (acc_params lag_params : List ℚ)
    (fam_yt : List ℚ → ℚ → ℚ)
    (fam_xt : List ℚ → IUSAD → ℚ → ℚ → ℚ → ℚ)
    (fam_lag : List ℚ → ℚ → ℚ)
    (errorbar : ℚ) (cot_angle csc_angle : ℚ)
    (insolation ins_times_raw : List ℚ)
    (retreats : List (List ℚ))
    (ret_ev : ℚ → ℚ → ℚ) : Trough :=
  let ins_times := ins_times_raw.map (fun t => -t)
  let lagsQ : List ℚ := lagsAxis.map (fun n => (n : ℚ))
  let accuModel : AccuModel := ⟨fam_yt, fam_xt, acc_params⟩
  let lagModel : LagModel := ⟨fam_lag, lag_params⟩
  let lag_model_t := lagModel.get_lag_at_t ins_times
  let retreat_model_t := List.zipWith ret_ev lag_model_t ins_times
  Trough.compute_model_splines
    { errorbar := errorbar
      mpp_x := 500
      mpp_y := 20
      cot_angle := cot_angle
      csc_angle := csc_angle
      insolation := insolation
      ins_times := ins_times
      retreats := retreats
      lags := lagsAxis
      ret_data_spline := ⟨lagsQ, ins_times, retreats⟩
      re2_data_spline :=
        ⟨lagsQ, ins_times, retreats.map (fun row => row.map (fun v => v ^ 2))⟩
      ret_ev := ret_ev
      accuModel := accuModel
      lagModel := lagModel
      lag_model_t := lag_model_t
      retreat_model_t := retreat_model_t
      lag_model_t_spline := ⟨[], []⟩
      retreat_model_t_spline := ⟨[], []⟩
      int_retreat_model_t_spline := ⟨⟨[], []⟩⟩ }

/-- `Trough.get_trajectory(times)`.  The source guards the default with
`if np.all(times) is None`: for the argument `None`, `np.all` reduces a 0-d
object array and hands back its single element, the object `None` itself, so
the test succeeds; for any numeric ndarray `np.all` is a numpy boolean and
the identity test fails.  The guard is therefore exactly a `None` test, and
`None` is replaced by the stored insolation time axis. -/
def Trough.get_trajectory (st : Trough) (times : Option (List ℚ)) :
    List ℚ × List ℚ :=
  let ts := match times with
    | none => st.ins_times
    | some ts => ts
  let y := st.accuModel.get_yt ts
  let x := st.accuModel.get_xt ts st.int_retreat_model_t_spline
    st.cot_angle st.csc_angle
  (x, y)

/-- `Trough._L2_distance(x1, x2, y1, y2)`: squared Euclidean distance. -/
def L2_distance (x1 x2 y1 y2 : ℚ) : ℚ :=
  (x1 - x2) ^ 2 + (y1 - y2) ^ 2

/-- `np.argmin`: index of the first occurrence of the minimum value. -/
def argminIdx : List ℚ → ℕ
  | [] => 0
  | [_] => 0
  | a :: b :: l =>
    let j := argminIdx (b :: l)
    if a ≤ (b :: l).getD j 0 then 0 else j + 1

/-- `Trough.get_nearest_points(x_data, y_data, dist_func)`: brute-force
nearest-neighbour matching of each data point against the currently
synthesized trajectory (`self.get_trajectory()` with no argument).  The
distance function defaults to `Trough._L2_distance`.  The output arrays are
allocated with `np.zeros_like(x_data)` and `np.zeros_like(y_data)` and the
loop runs over `zip(x_data, y_data)`, so positions past the zip length stay
zero.  `np.argmin` raises on an empty distance array (an empty trajectory
with at least one data pair); that is modelled as `none`. -/
def Trough.get_nearest_points (st : Trough) (x_data y_data : List ℚ)
    (dist_func : Option (ℚ → ℚ → ℚ → ℚ → ℚ)) :
    Option (List ℚ × List ℚ) :=
  let df := dist_func.getD L2_distance
  let xy := st.get_trajectory none
  let x_model := xy.1
  let y_model := xy.2
  let pairs := x_data.zip y_data
  if pairs ≠ [] ∧ min x_model.length y_model.length = 0 then none
  else
    let outs := pairs.map (fun p =>
      let dist := List.zipWith (fun xm ym => df xm p.1 ym p.2)
        x_model y_model
      let ind := argminIdx dist
      (x_model.getD ind 0, y_model.getD ind 0))
    some (outs.map Prod.fst ++ List.replicate (x_data.length - pairs.length) 0,
          outs.map Prod.snd ++ List.replicate (y_data.length - pairs.length) 0)

/-- `Trough.lnlikelihood(x_data, y_data)`: Gaussian log-likelihood of the
data given the model.  `xvar, yvar = (errorbar * meters_per_pixel) ** 2`,
`chi2 = (x_data - x_model) ** 2 / xvar + (y_data - y_model) ** 2 / yvar`,
and the result is `-0.5 * chi2.sum() - 0.5 * len(x_data) * log(xvar * yvar)`.
The logarithm lives in `ℝ`; everything else is computed exactly in `ℚ`. -/
noncomputable def Trough.lnlikelihood (st : Trough) (x_data y_data : List ℚ) :
    Option ℝ :=
  (st.get_nearest_points x_data y_data none).map (fun xy =>
    let x_model := xy.1
    let y_model := xy.2
    let xvar := (st.errorbar * st.mpp_x) ^ 2
    let yvar := (st.errorbar * st.mpp_y) ^ 2
    let chi2 := List.zipWith (fun a b => a + b)
      (List.zipWith (fun xd xm => (xd - xm) ^ 2 / xvar) x_data x_model)
      (List.zipWith (fun yd ym => (yd - ym) ^ 2 / yvar) y_data y_model)
    (-(1 / 2 : ℝ)) * ((chi2.sum : ℚ) : ℝ)
      - (1 / 2 : ℝ) * (x_data.length : ℝ) * Real.log ((xvar * yvar : ℚ) : ℝ))

/-- The named parameter vector handed to the likelihood: the global
noise-scale parameter followed by the accumulation and lag slices, in the
order of `parameter_names` (`[errorbar] + acc_params + lag_params`). -/
structure Params where
  errorbar : ℚ
  acc_params : List ℚ
  lag_params : List ℚ

/-- The estimator state the likelihood reads and writes: the observed data,
the stored time axis, and the trough model mutated in place. -/
structure MCMCState where
  xdata : List ℚ
  ydata : List ℚ
  times : List ℚ
  tr : Trough

/-- The data-loading part of `MCMC.__init__`: the observed TMP file is read
into `xdata, ydata`; only the first column is rescaled, by
`self.xdata = self.xdata * 1000` (km to m); the insolation times are negated
(`self.times = -times`); the trough model is constructed. -/
def MCMC.init (xraw yraw : List ℚ) (ins_times_raw : List ℚ)
    (acc_params lag_params : List ℚ)
    (fam_yt : List ℚ → ℚ → ℚ)
    (fam_xt : List ℚ → IUSAD → ℚ → ℚ → ℚ → ℚ)
    (fam_lag : List ℚ → ℚ → ℚ)
    (errorbar : ℚ) (cot_angle csc_angle : ℚ)
    (insolation : List ℚ)
    (retreats : List (List ℚ))
    (ret_ev : ℚ → ℚ → ℚ) : MCMCState :=
  { xdata := xraw.map (fun v => v * 1000)
    ydata := yraw
    times := ins_times_raw.map (fun t => -t)
    tr := Trough.init acc_params lag_params fam_yt fam_xt fam_lag
      errorbar cot_angle csc_angle insolation ins_times_raw retreats ret_ev }

/-- The large negative sentinel `-1e99` returned for excluded parameter
regions. -/
noncomputable def sentinel : ℝ := -(10 ^ 99)

/-- `MCMC.ln_likelihood(params)`: returns the sentinel if the errorbar is
negative; otherwise updates the trough model with the new parameters, then
returns the sentinel if the predicted lag at any stored time leaves
`[0, 20]`; otherwise returns the trough log-likelihood of the observed
data.  The state is threaded explicitly: the trough model is mutated in
place by `set_model`. -/
noncomputable def MCMC.ln_likelihood (s : MCMCState) (p : Params) :
    MCMCState × Option ℝ :=
  if p.errorbar < 0 then (s, some sentinel)
  else
    let tr := s.tr.set_model p.acc_params p.lag_params p.errorbar
    let s1 := { s with tr := tr }
    let lag_t := tr.lagModel.get_lag_at_t s1.times
    if lag_t.any (fun v => decide (v < 0)) ||
        lag_t.any (fun v => decide (20 < v)) then
      (s1, some sentinel)
    else
      (s1, tr.lnlikelihood s1.xdata s1.ydata)

/-- The stability half of the convergence test,
`np.all(np.abs(old_tau - tau) / tau < 0.01)`.  The loop initializes
`old_tau = np.inf`, modelled as `none`: for the positive autocorrelation
estimates emcee produces, the relative change against an infinite previous
value is infinite and the test fails. -/
def tauStable (d : ℕ) (old : Option (Fin d → ℚ)) (tau : Fin d → ℚ) : Prop :=
  match old with
  | none => False
  | some o => ∀ i, |o i - tau i| / tau i < 1 / 100

instance (d : ℕ) (old : Option (Fin d → ℚ)) (tau : Fin d → ℚ) :
    Decidable (tauStable d old tau) :=
  match old with
  | none => isFalse (fun h => h)
  | some o =>
    inferInstanceAs (Decidable (∀ i, |o i - tau i| / tau i < 1 / 100))

/-- The convergence test performed at a periodic check:
`converged = np.all(tau * 50 < iteration)` and
`converged &= np.all(np.abs(old_tau - tau) / tau < 0.01)`. -/
def convergedCheck (d : ℕ) (old : Option (Fin d → ℚ)) (tau : Fin d → ℚ)
    (iter : ℕ) : Prop :=
  (∀ i, tau i * 50 < (iter : ℚ)) ∧ tauStable d old tau

instance (d : ℕ) (old : Option (Fin d → ℚ)) (tau : Fin d → ℚ) (iter : ℕ) :
    Decidable (convergedCheck d old tau iter) :=
  inferInstanceAs (Decidable (_ ∧ _))

/-- One check of the sampling loop and the recursion to the next: at check
`k` (iteration `k * subIter`) the loop breaks if the convergence test holds,
else stores the current estimate as `old_tau` and keeps sampling.  `fuel` is
the number of checks still to come; when it runs out the loop finishes the
remaining iterations and stops at `maxSteps`.  The result is the iteration
count at exit and whether convergence was declared. -/
def mcmcLoopGo (d subIter maxSteps : ℕ) (tau : ℕ → Fin d → ℚ) :
    ℕ → ℕ → Option (Fin d → ℚ) → ℕ × Bool
  | 0, _, _ => (maxSteps, false)
  | fuel + 1, k, old =>
    if convergedCheck d old (tau k) (k * subIter) then (k * subIter, true)
    else mcmcLoopGo d subIter maxSteps tau fuel (k + 1) (some (tau k))

/-- The sampling loop of `MCMC.__init__` (lines 96-117), with the
autocorrelation estimates of emcee abstracted as the sequence `tau` (the
estimate at the k-th check).  Checks happen at the iterations divisible by
`subIter`, so there are `maxSteps / subIter` of them; `old_tau` starts at
infinity. -/
def mcmcRun (d maxSteps subIter : ℕ) (tau : ℕ → Fin d → ℚ) : ℕ × Bool :=
  mcmcLoopGo d subIter maxSteps tau (maxSteps / subIter) 1 none

/-- The `old_tau` value held at check `k`: infinity before the first check,
afterwards the estimate of the previous check. -/
def oldAt (d : ℕ) (tau : ℕ → Fin d → ℚ) (k : ℕ) : Option (Fin d → ℚ) :=
  if k ≤ 1 then none else some (tau (k - 1))

/-- The convergence test at check `k` with the `old_tau` the loop holds
there. -/
def checkConv (d subIter : ℕ) (tau : ℕ → Fin d → ℚ) (k : ℕ) : Prop :=
  convergedCheck d (oldAt d tau k) (tau k) (k * subIter)

instance (d subIter : ℕ) (tau : ℕ → Fin d → ℚ) (k : ℕ) :
    Decidable (checkConv d subIter tau k) :=
  inferInstanceAs (Decidable (convergedCheck _ _ _ _))

/-! Helper lemmas about list indexing with `getD`. -/

lemma getD_zipWith (f : ℚ → ℚ → ℚ) :
    ∀ (l1 l2 : List ℚ) (i : ℕ), i < min l1.length l2.length →
      (List.zipWith f l1 l2).getD i 0 = f (l1.getD i 0) (l2.getD i 0)
  | [], _, i, h => by simp at h
  | _ :: _, [], i, h => by simp at h
  | a :: l1, b :: l2, 0, _ => rfl
  | a :: l1, b :: l2, i + 1, h => by
    simp only [List.zipWith_cons_cons, List.getD_cons_succ]
    refine getD_zipWith f l1 l2 i ?_
    simp only [List.length_cons, Nat.lt_min] at h ⊢
    omega

lemma getD_zip :
    ∀ (l1 l2 : List ℚ) (i : ℕ), i < min l1.length l2.length →
      (l1.zip l2).getD i (0, 0) = (l1.getD i 0, l2.getD i 0)
  | [], _, i, h => by simp at h
  | _ :: _, [], i, h => by simp at h
  | a :: l1, b :: l2, 0, _ => rfl
  | a :: l1, b :: l2, i + 1, h => by
    simp only [List.zip_cons_cons, List.getD_cons_succ]
    refine getD_zip l1 l2 i ?_
    simp only [List.length_cons, Nat.lt_min] at h ⊢
    omega

lemma getD_append_left :
    ∀ (l1 l2 : List ℚ) (i : ℕ), i < l1.length →
      (l1 ++ l2).getD i 0 = l1.getD i 0
  | [], _, i, h => by simp at h
  | a :: l1, l2, 0, _ => rfl
  | a :: l1, l2, i + 1, h => by
    simpa using getD_append_left l1 l2 i (by simpa using h)

lemma getD_map_pair (f : ℚ × ℚ → ℚ) :
    ∀ (l : List (ℚ × ℚ)) (i : ℕ), i < l.length →
      (l.map f).getD i 0 = f (l.getD i (0, 0))
  | [], i, h => by simp at h
  | a :: l, 0, _ => rfl
  | a :: l, i + 1, h => by
    simpa using getD_map_pair f l i (by simpa using h)

lemma getD_map_pairF (f : ℚ × ℚ → ℚ × ℚ) :
    ∀ (l : List (ℚ × ℚ)) (i : ℕ), i < l.length →
      (l.map f).getD i (0, 0) = f (l.getD i (0, 0))
  | [], i, h => by simp at h
  | a :: l, 0, _ => rfl
  | a :: l, i + 1, h => by
    simpa using getD_map_pairF f l i (by simpa using h)

lemma list_sum_getD :
    ∀ l : List ℚ, l.sum = ∑ i in Finset.range l.length, l.getD i 0
  | [] => by simp
  | a :: l => by
    rw [List.sum_cons, list_sum_getD l, List.length_cons,
      Finset.sum_range_succ']
    simp [add_comm]

/-! Helper lemmas about `argminIdx`: the returned index is in range, its
value is a minimum, and it is the first index attaining the minimum. -/

lemma argminIdx_lt_length :
    ∀ (l : List ℚ), l ≠ [] → argminIdx l < l.length
  | [], h => absurd rfl h
  | [_], _ => by simp [argminIdx]
  | a :: b :: l, _ => by
    have ih := argminIdx_lt_length (b :: l) (by simp)
    simp only [argminIdx]
    split
    · simp
    · simp only [List.length_cons] at ih ⊢
      omega

lemma argminIdx_le :
    ∀ (l : List ℚ) (k : ℕ), k < l.length →
      l.getD (argminIdx l) 0 ≤ l.getD k 0
  | [], k, hk => by simp at hk
  | [_], k, hk => by
    have : k = 0 := by simpa using Nat.lt_one_iff.mp (by simpa using hk)
    subst this
    simp [argminIdx]
  | a :: b :: l, k, hk => by
    have ihle := fun k hk => argminIdx_le (b :: l) k hk
    simp only [argminIdx]
    rcases le_or_lt a ((b :: l).getD (argminIdx (b :: l)) 0) with h | h
    · rw [if_pos h]
      cases k with
      | zero => simp
      | succ k =>
        have hk' : k < (b :: l).length := by
          simp only [List.length_cons] at hk ⊢
          omega
        simp only [List.getD_cons_zero, List.getD_cons_succ]
        exact le_trans h (ihle k hk')
    · rw [if_neg (not_le.mpr h)]
      cases k with
      | zero =>
        simp only [List.getD_cons_zero, List.getD_cons_succ]
        exact le_of_lt h
      | succ k =>
        have hk' : k < (b :: l).length := by
          simp only [List.length_cons] at hk ⊢
          omega
        simp only [List.getD_cons_succ]
        exact ihle k hk'

lemma argminIdx_first :
    ∀ (l : List ℚ) (k : ℕ), k < argminIdx l →
      l.getD (argminIdx l) 0 < l.getD k 0
  | [], k, hk => by simp [argminIdx] at hk
  | [_], k, hk => by simp [argminIdx] at hk
  | a :: b :: l, k, hk => by
    have ih := fun k hk => argminIdx_first (b :: l) k hk
    simp only [argminIdx] at hk ⊢
    rcases le_or_lt a ((b :: l).getD (argminIdx (b :: l)) 0) with h | h
    · rw [if_pos h] at hk
      exact absurd hk (by omega)
    · rw [if_neg (not_le.mpr h)] at hk ⊢
      cases k with
      | zero =>
        simpa using h
      | succ k =>
        simp only [List.getD_cons_succ]
        exact ih k (Nat.succ_lt_succ_iff.mp hk)

/-- Full characterization of a successful `get_nearest_points` call with the
default distance: output lengths match the data, and each output pair within
the zip range is the trajectory point at the first index minimizing the
squared Euclidean distance to the data point. -/
lemma nearest_points_core (st : Trough) (xm ym xd yd xo yo : List ℚ)
    (htraj : st.get_trajectory none = (xm, ym))
    (h : st.get_nearest_points xd yd none = some (xo, yo)) :
    xo.length = xd.length ∧ yo.length = yd.length ∧
    ∀ i, i < (xd.zip yd).length →
      ∃ j, j < min xm.length ym.length ∧
        xo.getD i 0 = xm.getD j 0 ∧ yo.getD i 0 = ym.getD j 0 ∧
        (∀ k, k < min xm.length ym.length →
          L2_distance (xm.getD j 0) (xd.getD i 0) (ym.getD j 0) (yd.getD i 0)
            ≤ L2_distance (xm.getD k 0) (xd.getD i 0) (ym.getD k 0)
                (yd.getD i 0)) ∧
        (∀ k, k < j →
          L2_distance (xm.getD j 0) (xd.getD i 0) (ym.getD j 0) (yd.getD i 0)
            < L2_distance (xm.getD k 0) (xd.getD i 0) (ym.getD k 0)
                (yd.getD i 0)) := by
  simp only [Trough.get_nearest_points, htraj, Option.getD_none] at h
  split at h
  · exact absurd h (by simp)
  · rename_i hcond
    simp only [Option.some.injEq, Prod.mk.injEq] at h
    obtain ⟨hxo, hyo⟩ := h
    subst hxo hyo
    have hlzip : (xd.zip yd).length = min xd.length yd.length :=
      List.length_zip ..
    refine ⟨?_, ?_, ?_⟩
    · simp only [List.length_append, List.length_map, List.length_replicate,
        hlzip]
      omega
    · simp only [List.length_append, List.length_map, List.length_replicate,
        hlzip]
      omega
    · intro i hi
      have hpairs : xd.zip yd ≠ [] := by
        intro hnil
        rw [hnil] at hi
        simp at hi
      have hmin : 0 < min xm.length ym.length := by
        rcases Nat.eq_zero_or_pos (min xm.length ym.length) with h0 | h0
        · exact absurd ⟨hpairs, h0⟩ hcond
        · exact h0
      -- the data point matched at position i
      set p := (xd.zip yd).getD i (0, 0) with hp
      have hpi : p = (xd.getD i 0, yd.getD i 0) := by
        rw [hp]
        exact getD_zip xd yd i (by rwa [hlzip] at hi)
      -- the distance vector for this data point
      set dist := List.zipWith (fun a b => L2_distance a p.1 b p.2) xm ym
        with hdist
      have hdistlen : dist.length = min xm.length ym.length :=
        List.length_zipWith ..
      have hdistne : dist ≠ [] := by
        intro hnil
        rw [hnil] at hdistlen
        simp only [List.length_nil] at hdistlen
        omega
      have hdistD : ∀ k, k < min xm.length ym.length →
          dist.getD k 0 =
            L2_distance (xm.getD k 0) (xd.getD i 0) (ym.getD k 0)
              (yd.getD i 0) := by
        intro k hk
        have := getD_zipWith (fun a b => L2_distance a p.1 b p.2) xm ym k hk
        rw [hdist, this, hpi]
      refine ⟨argminIdx dist, ?_, ?_, ?_, ?_, ?_⟩
      · rw [← hdistlen]
        exact argminIdx_lt_length dist hdistne
      · rw [getD_append_left _ _ i (by simpa [hlzip] using hi),
          getD_map_pair Prod.fst _ i (by simpa [hlzip] using hi),
          getD_map_pairF _ _ i (by simpa [hlzip] using hi)]
      · rw [getD_append_left _ _ i (by simpa [hlzip] using hi),
          getD_map_pair Prod.snd _ i (by simpa [hlzip] using hi),
          getD_map_pairF _ _ i (by simpa [hlzip] using hi)]
      · intro k hk
        have hj : argminIdx dist < min xm.length ym.length := by
          rw [← hdistlen]
          exact argminIdx_lt_length dist hdistne
        have := argminIdx_le dist k (by rwa [hdistlen])
        rwa [hdistD _ hj, hdistD _ hk] at this
      · intro k hk
        have hj : argminIdx dist < min xm.length ym.length := by
          rw [← hdistlen]
          exact argminIdx_lt_length dist hdistne
        have hk' : k < min xm.length ym.length := by
          omega
        have := argminIdx_first dist k hk
        rwa [hdistD _ hj, hdistD _ hk'] at this

/-! Concrete submodel variants and states used to instantiate theorems with
hypotheses: a zero accumulation law, a constant lag law (lag equal to the
first lag parameter at every time), and a retreat evaluation returning the
lag. -/

def famYt0 : List ℚ → ℚ → ℚ := fun _ _ => 0

def famXt0 : List ℚ → IUSAD → ℚ → ℚ → ℚ → ℚ := fun _ _ _ _ _ => 0

def famLagC : List ℚ → ℚ → ℚ := fun ps _ => ps.headD 0

def retEvLag : ℚ → ℚ → ℚ := fun l _ => l

/-- A small concrete estimator state: one observed data point at the origin,
one insolation time, constant lag submodel with initial lag 1. -/
def sW : MCMCState :=
  MCMC.init [0] [0] [-1] [] [1] famYt0 famXt0 famLagC 1 0 1 [0] [[1]] retEvLag

/-- A concrete estimator state with two insolation times, used to exhibit the
stale splines left behind by a parameter update. -/
def sCB : MCMCState :=
  MCMC.init [0] [0] [-1, -2] [] [1] famYt0 famXt0 famLagC 1 0 1 [0] [[1]]
    retEvLag

/-- The new parameter vector driving the stale-spline evaluation: errorbar 1,
no accumulation parameters, lag parameter 2 (valid, inside [0, 20], and
different from the construction-time lag 1). -/
def pCB : Params := ⟨1, [], [2]⟩

/-- C6: when `get_trajectory` is called without a times argument, it
evaluates the trajectory at the stored insolation time axis: the returned
position arrays equal those obtained by passing the stored axis
explicitly. -/
theorem c6_default_times (st : Trough) :
    st.get_trajectory none = st.get_trajectory (some st.ins_times) := rfl

/-- The lag axis as the claim states it: the consecutive integers 0..15 with
the first entry clamped to 0 and the last entry clamped to 20. -/
def lagSpecAxis : List ℤ :=
  let l := (List.range 16).map (fun i => (i : ℤ))
  let l := l.set 0 0
  l.set 15 20

/-- C7 counterexample: the lag axis the constructor builds is not the
consecutive-integer axis of the claim; already its second entry is 2, not
1. -/
theorem c7_lag_axis_counterexample :
    lagsAxis ≠ lagSpecAxis ∧ lagsAxis.getD 1 0 = 2 ∧
      lagSpecAxis.getD 1 0 = 1 := by
  decide

/-- C7 amended: the constructor builds the 16-entry lag axis
`[0, 2, 3, ..., 15, 20]` (the integers 1..16 with the first entry
decremented to 0 and the last set to 20); it starts at 0, ends at 20, and
is the first axis of both 2-D retreat splines. -/
theorem c7_lag_axis_amended (acc_params lag_params : List ℚ)
    (fam_yt : List ℚ → ℚ → ℚ) (fam_xt : List ℚ → IUSAD → ℚ → ℚ → ℚ → ℚ)
    (fam_lag : List ℚ → ℚ → ℚ) (errorbar cot_angle csc_angle : ℚ)
    (insolation ins_times_raw : List ℚ) (retreats : List (List ℚ))
    (ret_ev : ℚ → ℚ → ℚ) :
    lagsAxis = [0, 2, 3, 4, 5, 6, 7, 8, 9, 10, 11, 12, 13, 14, 15, 20] ∧
    (Trough.init acc_params lag_params fam_yt fam_xt fam_lag errorbar
        cot_angle csc_angle insolation ins_times_raw retreats
        ret_ev).lags = lagsAxis ∧
    (Trough.init acc_params lag_params fam_yt fam_xt fam_lag errorbar
        cot_angle csc_angle insolation ins_times_raw retreats
        ret_ev).ret_data_spline.x = lagsAxis.map (fun n => (n : ℚ)) ∧
    (Trough.init acc_params lag_params fam_yt fam_xt fam_lag errorbar
        cot_angle csc_angle insolation ins_times_raw retreats
        ret_ev).re2_data_spline.x = lagsAxis.map (fun n => (n : ℚ)) := by
  refine ⟨by decide, rfl, rfl, rfl⟩

/-- The data-load conversion as the claim states it: both observed columns
are pixel positions converted to meters via the pixel-to-meter factors
(500 horizontal, 20 vertical). -/
def loadTMP_spec (xraw yraw : List ℚ) : List ℚ × List ℚ :=
  (xraw.map (fun v => v * 500), yraw.map (fun v => v * 20))

/-- C8 counterexample: loading the observed file with raw columns [1], [1]
stores ([1000], [1]): the first column is multiplied by 1000 (a km-to-m
conversion) and the second column is stored unchanged, which differs from
a pixel-to-meter conversion of both columns. -/
theorem c8_load_counterexample :
    ((MCMC.init [1] [1] [-1] [] [1] famYt0 famXt0 famLagC 1 0 1 [0] [[1]]
        retEvLag).xdata,
      (MCMC.init [1] [1] [-1] [] [1] famYt0 famXt0 famLagC 1 0 1 [0] [[1]]
        retEvLag).ydata) = ([1000], [1]) ∧
    loadTMP_spec [1] [1] = ([500], [20]) ∧
    ((MCMC.init [1] [1] [-1] [] [1] famYt0 famXt0 famLagC 1 0 1 [0] [[1]]
        retEvLag).xdata,
      (MCMC.init [1] [1] [-1] [] [1] famYt0 famXt0 famLagC 1 0 1 [0] [[1]]
        retEvLag).ydata) ≠ loadTMP_spec [1] [1] := by
  refine ⟨?_, ?_, ?_⟩ <;> norm_num [MCMC.init, loadTMP_spec]

/-- C8 amended: on load, only the horizontal column is rescaled, by a factor
of 1000 (kilometers to meters); the vertical column is stored exactly as
read, and neither pixel-to-meter factor is applied to the data. -/
theorem c8_load_amended (xraw yraw ins_times_raw : List ℚ)
    (acc_params lag_params : List ℚ) (fam_yt : List ℚ → ℚ → ℚ)
    (fam_xt : List ℚ → IUSAD → ℚ → ℚ → ℚ → ℚ) (fam_lag : List ℚ → ℚ → ℚ)
    (errorbar cot_angle csc_angle : ℚ) (insolation : List ℚ)
    (retreats : List (List ℚ)) (ret_ev : ℚ → ℚ → ℚ) :
    (MCMC.init xraw yraw ins_times_raw acc_params lag_params fam_yt fam_xt
        fam_lag errorbar cot_angle csc_angle insolation retreats
        ret_ev).xdata = xraw.map (fun v => v * 1000) ∧
    (MCMC.init xraw yraw ins_times_raw acc_params lag_params fam_yt fam_xt
        fam_lag errorbar cot_angle csc_angle insolation retreats
        ret_ev).ydata = yraw :=
  ⟨rfl, rfl⟩

/-- C5: each coordinate pair returned by `get_nearest_points` (with the
default distance) is a point of the currently synthesized trajectory whose
squared Euclidean distance to its data point is minimal over the whole
trajectory, and among the minimizers the one at the smallest index in
trajectory order is returned. -/
theorem c5_nearest_minimal (st : Trough) (xm ym xd yd xo yo : List ℚ)
    (htraj : st.get_trajectory none = (xm, ym))
    (h : st.get_nearest_points xd yd none = some (xo, yo)) :
    ∀ i, i < (xd.zip yd).length →
      ∃ j, j < min xm.length ym.length ∧
        xo.getD i 0 = xm.getD j 0 ∧ yo.getD i 0 = ym.getD j 0 ∧
        (∀ k, k < min xm.length ym.length →
          L2_distance (xm.getD j 0) (xd.getD i 0) (ym.getD j 0) (yd.getD i 0)
            ≤ L2_distance (xm.getD k 0) (xd.getD i 0) (ym.getD k 0)
                (yd.getD i 0)) ∧
        (∀ k, k < j →
          L2_distance (xm.getD j 0) (xd.getD i 0) (ym.getD j 0) (yd.getD i 0)
            < L2_distance (xm.getD k 0) (xd.getD i 0) (ym.getD k 0)
                (yd.getD i 0)) :=
  (nearest_points_core st xm ym xd yd xo yo htraj h).2.2

/-- C10: for equal-length data arrays, a successful `get_nearest_points`
returns arrays of the same lengths as the data, and every returned pair is
an element of the trajectory produced by `get_trajectory` under the current
model state, at a common index. -/
theorem c10_membership_lengths (st : Trough) (xm ym xd yd xo yo : List ℚ)
    (hlen : xd.length = yd.length)
    (htraj : st.get_trajectory none = (xm, ym))
    (h : st.get_nearest_points xd yd none = some (xo, yo)) :
    xo.length = xd.length ∧ yo.length = yd.length ∧
    ∀ i, i < xd.length →
      ∃ j, j < xm.length ∧ xo.getD i 0 = xm.getD j 0 ∧
        yo.getD i 0 = ym.getD j 0 := by
  obtain ⟨h1, h2, h3⟩ := nearest_points_core st xm ym xd yd xo yo htraj h
  refine ⟨h1, h2, ?_⟩
  intro i hi
  have hi' : i < (xd.zip yd).length := by
    rw [List.length_zip]
    omega
  obtain ⟨j, hj, hx, hy, _, _⟩ := h3 i hi'
  exact ⟨j, by omega, hx, hy⟩

lemma chi2_sum (xvar yvar : ℚ) (xd xm yd ym : List ℚ)
    (h1 : xm.length = xd.length) (h2 : ym.length = yd.length)
    (h3 : xd.length = yd.length) :
    (List.zipWith (fun a b => a + b)
      (List.zipWith (fun xdi xmi => (xdi - xmi) ^ 2 / xvar) xd xm)
      (List.zipWith (fun ydi ymi => (ydi - ymi) ^ 2 / yvar) yd ym)).sum
    = ∑ i in Finset.range xd.length,
        ((xd.getD i 0 - xm.getD i 0) ^ 2 / xvar
          + (yd.getD i 0 - ym.getD i 0) ^ 2 / yvar) := by
  have hlen : (List.zipWith (fun a b => a + b)
      (List.zipWith (fun xdi xmi => (xdi - xmi) ^ 2 / xvar) xd xm)
      (List.zipWith (fun ydi ymi => (ydi - ymi) ^ 2 / yvar) yd ym)).length
      = xd.length := by
    simp only [List.length_zipWith]
    omega
  rw [list_sum_getD, hlen]
  refine Finset.sum_congr rfl ?_
  intro i hi
  have hi' := Finset.mem_range.mp hi
  rw [getD_zipWith _ _ _ i (by simp only [List.length_zipWith]; omega),
    getD_zipWith _ _ _ i (by omega),
    getD_zipWith _ _ _ i (by omega)]

/-- C4: for equal-length data arrays, the trough log-likelihood equals
minus one half of the chi square over the nearest points plus the variance
normalization, with the variances the squares of the errorbar times the
pixel-to-meter factors. -/
theorem c4_lnlikelihood_formula (st : Trough) (xd yd xm ym : List ℚ)
    (hlen : xd.length = yd.length)
    (h : st.get_nearest_points xd yd none = some (xm, ym)) :
    st.lnlikelihood xd yd = some (
      (-(1 / 2 : ℝ)) * (∑ i in Finset.range xd.length,
        (((xd.getD i 0 - xm.getD i 0) ^ 2 / (st.errorbar * st.mpp_x) ^ 2
          + (yd.getD i 0 - ym.getD i 0) ^ 2 / (st.errorbar * st.mpp_y) ^ 2
            : ℚ) : ℝ))
      - (1 / 2 : ℝ) * (xd.length : ℝ)
        * Real.log ((((st.errorbar * st.mpp_x) ^ 2
            * (st.errorbar * st.mpp_y) ^ 2 : ℚ)) : ℝ)) := by
  have hcore := nearest_points_core st (st.get_trajectory none).1
    (st.get_trajectory none).2 xd yd xm ym rfl h
  have hxm : xm.length = xd.length := hcore.1
  have hym : ym.length = yd.length := hcore.2.1
  simp only [Trough.lnlikelihood, h, Option.map_some', Option.some.injEq]
  rw [chi2_sum _ _ xd xm yd ym hxm hym hlen]
  push_cast
  ring

theorem c5_nearest_minimal_witness :
    sW.tr.get_trajectory none = ([0], [0]) ∧
    sW.tr.get_nearest_points [3] [4] none = some ([0], [0]) ∧
    ∃ j, j < min ([0] : List ℚ).length ([0] : List ℚ).length ∧
      ([0] : List ℚ).getD 0 0 = ([0] : List ℚ).getD j 0 := by
  have htraj : sW.tr.get_trajectory none = ([0], [0]) := rfl
  have h : sW.tr.get_nearest_points [3] [4] none = some ([0], [0]) := by
    norm_num [Trough.get_nearest_points, Trough.get_trajectory, sW, MCMC.init,
      Trough.init, Trough.compute_model_splines, famYt0, famXt0, famLagC,
      retEvLag, AccuModel.get_yt, AccuModel.get_xt, LagModel.get_lag_at_t,
      argminIdx, L2_distance]
  obtain ⟨j, hj, hx, -, -, -⟩ :=
    c5_nearest_minimal sW.tr [0] [0] [3] [4] [0] [0] htraj h 0
      (by simp [List.length_zip])
  exact ⟨htraj, h, j, hj, hx⟩

theorem c10_membership_lengths_witness :
    (([3, 5] : List ℚ).length = ([4, 6] : List ℚ).length) ∧
    sW.tr.get_trajectory none = ([0], [0]) ∧
    sW.tr.get_nearest_points [3, 5] [4, 6] none = some ([0, 0], [0, 0]) ∧
    ([0, 0] : List ℚ).length = ([3, 5] : List ℚ).length := by
  have hlen : ([3, 5] : List ℚ).length = ([4, 6] : List ℚ).length := rfl
  have htraj : sW.tr.get_trajectory none = ([0], [0]) := rfl
  have h : sW.tr.get_nearest_points [3, 5] [4, 6] none
      = some ([0, 0], [0, 0]) := by
    norm_num [Trough.get_nearest_points, Trough.get_trajectory, sW, MCMC.init,
      Trough.init, Trough.compute_model_splines, famYt0, famXt0, famLagC,
      retEvLag, AccuModel.get_yt, AccuModel.get_xt, LagModel.get_lag_at_t,
      argminIdx, L2_distance]
  exact ⟨hlen, htraj, h,
    (c10_membership_lengths sW.tr [0] [0] [3, 5] [4, 6] [0, 0] [0, 0] hlen
      htraj h).1⟩

theorem c4_lnlikelihood_formula_witness :
    (([3] : List ℚ).length = ([4] : List ℚ).length) ∧
    sW.tr.get_nearest_points [3] [4] none = some ([0], [0]) ∧
    sW.tr.lnlikelihood [3] [4] = some (
      (-(1 / 2 : ℝ)) * (∑ i in Finset.range ([3] : List ℚ).length,
        (((([3] : List ℚ).getD i 0 - ([0] : List ℚ).getD i 0) ^ 2
            / (sW.tr.errorbar * sW.tr.mpp_x) ^ 2
          + (([4] : List ℚ).getD i 0 - ([0] : List ℚ).getD i 0) ^ 2
            / (sW.tr.errorbar * sW.tr.mpp_y) ^ 2 : ℚ) : ℝ))
      - (1 / 2 : ℝ) * ((([3] : List ℚ).length : ℕ) : ℝ)
        * Real.log ((((sW.tr.errorbar * sW.tr.mpp_x) ^ 2
            * (sW.tr.errorbar * sW.tr.mpp_y) ^ 2 : ℚ)) : ℝ)) := by
  have hlen : ([3] : List ℚ).length = ([4] : List ℚ).length := rfl
  have h : sW.tr.get_nearest_points [3] [4] none = some ([0], [0]) := by
    norm_num [Trough.get_nearest_points, Trough.get_trajectory, sW, MCMC.init,
      Trough.init, Trough.compute_model_splines, famYt0, famXt0, famLagC,
      retEvLag, AccuModel.get_yt, AccuModel.get_xt, LagModel.get_lag_at_t,
      argminIdx, L2_distance]
  exact ⟨hlen, h, c4_lnlikelihood_formula sW.tr [3] [4] [0] [0] hlen h⟩

/-- The second hard prior of the likelihood: the lag predicted by the
updated lag submodel at some stored time lies outside [0, 20]. -/
def lagOutOfRange (s : MCMCState) (p : Params) : Prop :=
  ∃ lag ∈ (s.tr.set_model p.acc_params p.lag_params
      p.errorbar).lagModel.get_lag_at_t s.times,
    lag < 0 ∨ 20 < lag

lemma lag_any_iff (s : MCMCState) (p : Params) :
    (((s.tr.set_model p.acc_params p.lag_params
          p.errorbar).lagModel.get_lag_at_t s.times).any
        (fun v => decide (v < 0)) ||
      ((s.tr.set_model p.acc_params p.lag_params
          p.errorbar).lagModel.get_lag_at_t s.times).any
        (fun v => decide (20 < v))) = true ↔
      lagOutOfRange s p := by
  rw [Bool.or_eq_true, List.any_eq_true, List.any_eq_true]
  simp only [decide_eq_true_eq, lagOutOfRange]
  constructor
  · rintro (⟨v, hv, hlt⟩ | ⟨v, hv, hgt⟩)
    · exact ⟨v, hv, Or.inl hlt⟩
    · exact ⟨v, hv, Or.inr hgt⟩
  · rintro ⟨v, hv, hlt | hgt⟩
    · exact Or.inl ⟨v, hv, hlt⟩
    · exact Or.inr ⟨v, hv, hgt⟩

/-- C2: the likelihood returns the sentinel -1e99 exactly when the errorbar
is negative or the predicted lag leaves [0, 20] at some stored time, and
otherwise returns the trough log-likelihood of the observed data under the
updated model.  The two implications characterize the branch taken. -/
theorem c2_sentinel_characterization (s : MCMCState) (p : Params) :
    ((p.errorbar < 0 ∨ lagOutOfRange s p) →
      (MCMC.ln_likelihood s p).2 = some sentinel) ∧
    (¬(p.errorbar < 0 ∨ lagOutOfRange s p) →
      (MCMC.ln_likelihood s p).2 =
        (s.tr.set_model p.acc_params p.lag_params p.errorbar).lnlikelihood
          s.xdata s.ydata) := by
  by_cases he : p.errorbar < 0
  · refine ⟨fun _ => ?_, fun hn => absurd (Or.inl he) hn⟩
    simp only [MCMC.ln_likelihood, if_pos he]
  · by_cases hl : lagOutOfRange s p
    · refine ⟨fun _ => ?_, fun hn => absurd (Or.inr hl) hn⟩
      simp only [MCMC.ln_likelihood, if_neg he]
      rw [if_pos ((lag_any_iff s p).mpr hl)]
    · refine ⟨?_, fun _ => ?_⟩
      · rintro (h | h)
        · exact absurd h he
        · exact absurd h hl
      · simp only [MCMC.ln_likelihood, if_neg he]
        rw [if_neg]
        intro hb
        exact hl ((lag_any_iff s p).mp hb)

theorem c2_sentinel_characterization_witness :
    ((⟨-1, [], []⟩ : Params).errorbar < 0 ∨ lagOutOfRange sW ⟨-1, [], []⟩) ∧
    (MCMC.ln_likelihood sW ⟨-1, [], []⟩).2 = some sentinel ∧
    ¬((⟨1, [], [1]⟩ : Params).errorbar < 0 ∨ lagOutOfRange sW ⟨1, [], [1]⟩) ∧
    (MCMC.ln_likelihood sW ⟨1, [], [1]⟩).2 =
      (sW.tr.set_model [] [1] 1).lnlikelihood sW.xdata sW.ydata := by
  have hc1 : (⟨-1, [], []⟩ : Params).errorbar < 0 ∨
      lagOutOfRange sW ⟨-1, [], []⟩ := Or.inl (by norm_num)
  have hc2 : ¬((⟨1, [], [1]⟩ : Params).errorbar < 0 ∨
      lagOutOfRange sW ⟨1, [], [1]⟩) := by
    norm_num [lagOutOfRange, Trough.set_model, LagModel.get_lag_at_t,
      famLagC, sW, MCMC.init, Trough.init, Trough.compute_model_splines]
  exact ⟨hc1, (c2_sentinel_characterization sW ⟨-1, [], []⟩).1 hc1, hc2,
    (c2_sentinel_characterization sW ⟨1, [], [1]⟩).2 hc2⟩

/-- C9: the two sentinel branches differ in atomicity.  A negative errorbar
returns the sentinel with the estimator state unchanged (the model update is
never performed), while an out-of-range lag returns the sentinel only after
the trough model has been overwritten: its submodel parameter vectors and
the derived lag and retreat arrays already hold the new values. -/
theorem c9_atomicity (s : MCMCState) (p : Params) :
    (p.errorbar < 0 → MCMC.ln_likelihood s p = (s, some sentinel)) ∧
    (0 ≤ p.errorbar → lagOutOfRange s p →
      MCMC.ln_likelihood s p =
        ({ s with tr := s.tr.set_model p.acc_params p.lag_params p.errorbar },
          some sentinel) ∧
      (s.tr.set_model p.acc_params p.lag_params
        p.errorbar).accuModel.parameters = p.acc_params ∧
      (s.tr.set_model p.acc_params p.lag_params
        p.errorbar).lagModel.parameters = p.lag_params ∧
      (s.tr.set_model p.acc_params p.lag_params p.errorbar).lag_model_t =
        s.tr.ins_times.map (s.tr.lagModel.fam_lag p.lag_params) ∧
      (s.tr.set_model p.acc_params p.lag_params p.errorbar).retreat_model_t =
        List.zipWith s.tr.ret_ev
          (s.tr.ins_times.map (s.tr.lagModel.fam_lag p.lag_params))
          s.tr.ins_times) := by
  constructor
  · intro he
    simp only [MCMC.ln_likelihood, if_pos he]
  · intro he hl
    have he' : ¬p.errorbar < 0 := not_lt.mpr he
    refine ⟨?_, rfl, rfl, rfl, rfl⟩
    simp only [MCMC.ln_likelihood, if_neg he']
    rw [if_pos ((lag_any_iff s p).mpr hl)]

theorem c9_atomicity_witness :
    ((⟨-1, [], []⟩ : Params).errorbar < 0) ∧
    MCMC.ln_likelihood sW ⟨-1, [], []⟩ = (sW, some sentinel) ∧
    (0 ≤ (⟨1, [], [21]⟩ : Params).errorbar) ∧
    lagOutOfRange sW ⟨1, [], [21]⟩ ∧
    MCMC.ln_likelihood sW ⟨1, [], [21]⟩ =
      ({ sW with tr := sW.tr.set_model [] [21] 1 }, some sentinel) := by
  have h1 : (⟨-1, [], []⟩ : Params).errorbar < 0 := by norm_num
  have h2 : (0 : ℚ) ≤ 1 := by norm_num
  have h3 : lagOutOfRange sW ⟨1, [], [21]⟩ := by
    refine ⟨21, ?_, Or.inr (by norm_num)⟩
    norm_num [Trough.set_model, LagModel.get_lag_at_t, famLagC, sW,
      MCMC.init, Trough.init, Trough.compute_model_splines]
  exact ⟨h1, (c9_atomicity sW ⟨-1, [], []⟩).1 h1, h2, h3,
    ((c9_atomicity sW ⟨1, [], [21]⟩).2 h2 h3).1⟩

/-- C1, refuted on the code: a concrete likelihood evaluation that reaches
the physical branch after `set_model` evaluates the trough log-likelihood
(hence `get_trajectory`) on a state whose 1-D splines were never rebuilt:
the current lag and retreat arrays hold the new values [2, 2], while the lag
spline and the antiderivative-of-retreat spline consumed by the trajectory
still carry the construction-time values [1, 1]; recomputing the splines as
the claim requires would carry [2, 2]. -/
theorem c1_stale_splines :
    (MCMC.ln_likelihood sCB pCB).2 =
      (MCMC.ln_likelihood sCB pCB).1.tr.lnlikelihood sCB.xdata sCB.ydata ∧
    (MCMC.ln_likelihood sCB pCB).1.tr.lag_model_t = [2, 2] ∧
    (MCMC.ln_likelihood sCB pCB).1.tr.retreat_model_t = [2, 2] ∧
    (MCMC.ln_likelihood sCB pCB).1.tr.lag_model_t_spline.vals = [1, 1] ∧
    (MCMC.ln_likelihood sCB pCB).1.tr.int_retreat_model_t_spline.parent.vals
      = [1, 1] ∧
    (Trough.compute_model_splines
        (MCMC.ln_likelihood sCB pCB).1.tr).int_retreat_model_t_spline.parent.vals
      = [2, 2] := by
  have hbranch : MCMC.ln_likelihood sCB pCB =
      ({ sCB with
          tr := sCB.tr.set_model pCB.acc_params pCB.lag_params pCB.errorbar },
        (sCB.tr.set_model pCB.acc_params pCB.lag_params
          pCB.errorbar).lnlikelihood sCB.xdata sCB.ydata) := by
    simp only [MCMC.ln_likelihood]
    rw [if_neg (by norm_num [pCB])]
    rw [if_neg]
    norm_num [Trough.set_model, LagModel.get_lag_at_t, famLagC, sCB, pCB,
      MCMC.init, Trough.init, Trough.compute_model_splines]
  rw [hbranch]
  refine ⟨rfl, ?_, ?_, ?_, ?_, ?_⟩ <;>
    norm_num [Trough.set_model, Trough.compute_model_splines,
      Trough.get_retreat_model_t, LagModel.get_lag_at_t, famLagC, retEvLag,
      sCB, pCB, MCMC.init, Trough.init]

/-- Characterization of the sampling loop over the window of checks
`[k, k + fuel)`, assuming the loop reaches check `k` holding the `old_tau`
value `oldAt k`: it exits with `(j * subIter, true)` exactly for the first
converged check `j` in the window, and with `(maxSteps, false)` exactly when
no check in the window converges. -/
lemma loop_window (d subIter maxSteps : ℕ) (tau : ℕ → Fin d → ℚ) :
    ∀ fuel k, 1 ≤ k →
      (∀ m : ℕ,
        mcmcLoopGo d subIter maxSteps tau fuel k (oldAt d tau k)
            = (m, true) ↔
          ∃ j, k ≤ j ∧ j < k + fuel ∧ m = j * subIter ∧
            checkConv d subIter tau j ∧
            ∀ i, k ≤ i → i < j → ¬checkConv d subIter tau i) ∧
      (mcmcLoopGo d subIter maxSteps tau fuel k (oldAt d tau k)
          = (maxSteps, false) ↔
        ∀ j, k ≤ j → j < k + fuel → ¬checkConv d subIter tau j)
  | 0, k, hk => by
    constructor
    · intro m
      constructor
      · intro h
        exact absurd h (by simp [mcmcLoopGo])
      · rintro ⟨j, hj1, hj2, -, -, -⟩
        exact absurd hj2 (by omega)
    · constructor
      · intro _ j hj1 hj2
        exact absurd hj2 (by omega)
      · intro _
        simp [mcmcLoopGo]
  | fuel + 1, k, hk => by
    have hnext : oldAt d tau (k + 1) = some (tau k) := by
      unfold oldAt
      rw [if_neg (by omega)]
      norm_num
    have IH := loop_window d subIter maxSteps tau fuel (k + 1) (by omega)
    by_cases hc : checkConv d subIter tau k
    · have hres : mcmcLoopGo d subIter maxSteps tau (fuel + 1) k
          (oldAt d tau k) = (k * subIter, true) := by
        simp only [mcmcLoopGo]
        rw [if_pos (show convergedCheck d (oldAt d tau k) (tau k)
          (k * subIter) from hc)]
      constructor
      · intro m
        rw [hres]
        constructor
        · intro h
          have hm : m = k * subIter := by
            have h1 := congrArg Prod.fst h
            simpa using h1.symm
          exact ⟨k, le_refl k, by omega, hm, hc,
            fun i h1 h2 => absurd (And.intro h1 h2) (by omega)⟩
        · rintro ⟨j, hj1, hj2, hm, hcj, hmin⟩
          have hjk : j = k := by
            by_contra hne
            exact hmin k (le_refl k) (by omega) hc
          subst hjk
          rw [hm]
      · rw [hres]
        constructor
        · intro h
          exact absurd h (by simp)
        · intro hall
          exact absurd hc (hall k (le_refl k) (by omega))
    · have hres : mcmcLoopGo d subIter maxSteps tau (fuel + 1) k
          (oldAt d tau k) =
          mcmcLoopGo d subIter maxSteps tau fuel (k + 1)
            (oldAt d tau (k + 1)) := by
        simp only [mcmcLoopGo]
        rw [if_neg (show ¬convergedCheck d (oldAt d tau k) (tau k)
          (k * subIter) from hc), hnext]
      constructor
      · intro m
        rw [hres, IH.1 m]
        constructor
        · rintro ⟨j, hj1, hj2, hm, hcj, hmin⟩
          refine ⟨j, by omega, by omega, hm, hcj, ?_⟩
          intro i h1 h2
          rcases Nat.eq_or_lt_of_le h1 with rfl | h1'
          · exact hc
          · exact hmin i (by omega) h2
        · rintro ⟨j, hj1, hj2, hm, hcj, hmin⟩
          have hjk : j ≠ k := fun h => hc (h ▸ hcj)
          exact ⟨j, by omega, by omega, hm, hcj,
            fun i h1 h2 => hmin i (by omega) h2⟩
      · rw [hres, IH.2]
        constructor
        · intro hall j h1 h2
          rcases Nat.eq_or_lt_of_le h1 with rfl | h1'
          · exact hc
          · exact hall j (by omega) (by omega)
        · intro hall j h1 h2
          exact hall j (by omega) (by omega)

/-- C3: the sampling loop declares convergence at a periodic check exactly
when the iteration count exceeds 50 times the estimated autocorrelation time
for every parameter and the estimate has changed by less than 1 percent of
its current value relative to the previous check for every parameter; it
exits early at the first such check (returning that iteration count and a
converged flag), never before, and otherwise runs all maxSteps iterations.
The hypothesis that the estimates are positive scopes the model of the
infinite initial `old_tau`. -/
theorem c3_convergence_loop (d maxSteps subIter : ℕ) (tau : ℕ → Fin d → ℚ)
    (hsub : 0 < subIter) (_htau : ∀ k i, 0 < tau k i) :
    (∀ k, 1 ≤ k → k ≤ maxSteps / subIter →
      (mcmcRun d maxSteps subIter tau = (k * subIter, true) ↔
        checkConv d subIter tau k ∧
          ∀ j, 1 ≤ j → j < k → ¬checkConv d subIter tau j)) ∧
    (mcmcRun d maxSteps subIter tau = (maxSteps, false) ↔
      ∀ j, 1 ≤ j → j ≤ maxSteps / subIter → ¬checkConv d subIter tau j) := by
  have hwin := loop_window d subIter maxSteps tau (maxSteps / subIter) 1
    (le_refl 1)
  have hrun : mcmcRun d maxSteps subIter tau =
      mcmcLoopGo d subIter maxSteps tau (maxSteps / subIter) 1
        (oldAt d tau 1) := by
    unfold mcmcRun oldAt
    rw [if_pos (le_refl 1)]
  constructor
  · intro k hk1 hk2
    rw [hrun, hwin.1 (k * subIter)]
    constructor
    · rintro ⟨j, hj1, hj2, hm, hcj, hmin⟩
      have hjk : j = k := Nat.eq_of_mul_eq_mul_right hsub hm.symm
      subst hjk
      exact ⟨hcj, fun i h1 h2 => hmin i h1 h2⟩
    · rintro ⟨hck, hmin⟩
      exact ⟨k, hk1, by omega, rfl, hck, fun i h1 h2 => hmin i h1 h2⟩
  · rw [hrun, hwin.2]
    constructor
    · intro hall j h1 h2
      exact hall j h1 (by omega)
    · intro hall j h1 h2
      exact hall j h1 (by omega)

theorem c3_convergence_loop_witness :
    (0 < 100) ∧ (∀ (_ : ℕ) (_ : Fin 1), (0 : ℚ) < 1) ∧
    mcmcRun 1 400 100 (fun _ _ => 1) = (2 * 100, true) := by
  have hconv : checkConv 1 100 (fun _ _ => (1 : ℚ)) 2 := by
    norm_num [checkConv, convergedCheck, oldAt, tauStable]
  have hmin : ∀ j, 1 ≤ j → j < 2 →
      ¬checkConv 1 100 (fun _ _ => (1 : ℚ)) j := by
    intro j h1 h2
    have hj : j = 1 := by omega
    subst hj
    norm_num [checkConv, convergedCheck, oldAt, tauStable]
  exact ⟨by norm_num, fun _ _ => by norm_num,
    ((c3_convergence_loop 1 400 100 (fun _ _ => 1) (by norm_num)
        (fun _ _ => by norm_num)).1 2 (by norm_num) (by norm_num)).mpr
      ⟨hconv, hmin⟩⟩

end MarsTroughs
